import Mathlib

/-
Verification of the client-side editing logic of the Pixshop photo-editing
front end (App.tsx and its panels).  The stateful React component is shallowly
embedded: each handler becomes a pure function on an explicit state record,
JS numbers become exact rationals (ℚ), array indices become ℤ exactly as the
component stores them, and canvas side effects become records describing the
drawing commands the handler issues.
-/

namespace Pixshop

/-! ## Edit history

The component keeps `history : File[]` and `historyIndex : number`
(initialised to -1 when no image is loaded).  We model the pair, generic in
the snapshot type, together with the handlers that touch it. -/

/-- The history-related slice of the component state: `history` and
`historyIndex` (an integer, -1 when empty). -/
structure AppHistory (α : Type) where
  history : List α
  historyIndex : ℤ
  deriving Repr, DecidableEq

variable {α : Type}

/-- `history[historyIndex] ?? null`: the current image, `none` when the index
is out of range (in particular at the initial index -1). -/
def currentImage (s : AppHistory α) : Option α :=
  if s.historyIndex < 0 then none else s.history.get? s.historyIndex.toNat

/-- `addImageToHistory`: `history.slice(0, historyIndex + 1)` followed by a
`push` of the new file; the index becomes `newHistory.length - 1`.  (The
component only ever holds `historyIndex ≥ -1`, where `slice(0, i+1)` is
`take (i+1).toNat`.) -/
def addImageToHistory (s : AppHistory α) (newImageFile : α) : AppHistory α :=
  let newHistory := s.history.take (s.historyIndex + 1).toNat ++ [newImageFile]
  { history := newHistory, historyIndex := (newHistory.length : ℤ) - 1 }

/-- `handleImageUpload`: `setHistory([file]); setHistoryIndex(0)`. -/
def handleImageUpload (file : α) : AppHistory α :=
  { history := [file], historyIndex := 0 }

/-- `canUndo = historyIndex > 0`. -/
def canUndo (s : AppHistory α) : Bool := s.historyIndex > 0

/-- `canRedo = historyIndex < history.length - 1`. -/
def canRedo (s : AppHistory α) : Bool := s.historyIndex < (s.history.length : ℤ) - 1

/-- `handleUndo`: when `canUndo`, decrement the index; otherwise nothing. -/
def handleUndo (s : AppHistory α) : AppHistory α :=
  if s.historyIndex > 0 then { s with historyIndex := s.historyIndex - 1 } else s

/-- `handleRedo`: when `canRedo`, increment the index; otherwise nothing. -/
def handleRedo (s : AppHistory α) : AppHistory α :=
  if s.historyIndex < (s.history.length : ℤ) - 1 then
    { s with historyIndex := s.historyIndex + 1 }
  else s

/-- `handleReset`: when the history is nonempty, jump the index to 0. -/
def handleReset (s : AppHistory α) : AppHistory α :=
  if s.history.length > 0 then { s with historyIndex := 0 } else s

/-! Helper lemmas about the history operations. -/

lemma addImageToHistory_atEnd (l : List α) (x : α) :
    addImageToHistory { history := l, historyIndex := (l.length : ℤ) - 1 } x
      = { history := l ++ [x], historyIndex := (l.length : ℤ) } := by
  simp only [addImageToHistory]
  have h1 : ((l.length : ℤ) - 1 + 1).toNat = l.length := by omega
  have h2 : l.take l.length = l := List.take_length l
  simp [h1, h2]

lemma foldl_addImageToHistory (es : List α) :
    ∀ l : List α,
      es.foldl addImageToHistory { history := l, historyIndex := (l.length : ℤ) - 1 }
        = { history := l ++ es, historyIndex := (l.length : ℤ) + es.length - 1 } := by
  induction es with
  | nil => intro l; simp
  | cons e es ih =>
      intro l
      rw [List.foldl_cons, addImageToHistory_atEnd]
      have h : (l.length : ℤ) = ((l ++ [e]).length : ℤ) - 1 := by
        simp
      rw [h, ih (l ++ [e])]
      simp
      omega

lemma iterate_handleUndo (n : ℕ) :
    ∀ (l : List α) (i : ℤ), (n : ℤ) ≤ i →
      handleUndo^[n] { history := l, historyIndex := i }
        = { history := l, historyIndex := i - n } := by
  induction n with
  | zero => intro l i _; simp
  | succ n ih =>
      intro l i hi
      rw [Function.iterate_succ_apply]
      have hstep : handleUndo { history := l, historyIndex := i }
          = ({ history := l, historyIndex := i - 1 } : AppHistory α) := by
        simp only [handleUndo]
        rw [if_pos (by omega)]
      rw [hstep, ih l (i - 1) (by omega)]
      congr 1
      omega

lemma iterate_handleRedo (n : ℕ) :
    ∀ (l : List α) (i : ℤ), i + n ≤ (l.length : ℤ) - 1 →
      handleRedo^[n] { history := l, historyIndex := i }
        = { history := l, historyIndex := i + n } := by
  induction n with
  | zero => intro l i _; simp
  | succ n ih =>
      intro l i hi
      rw [Function.iterate_succ_apply]
      have hstep : handleRedo { history := l, historyIndex := i }
          = ({ history := l, historyIndex := i + 1 } : AppHistory α) := by
        simp only [handleRedo]
        rw [if_pos (by omega)]
      rw [hstep, ih l (i + 1) (by omega)]
      congr 1
      omega

lemma currentImage_addImageToHistory (s : AppHistory α) (x : α) :
    currentImage (addImageToHistory s x) = some x := by
  simp only [addImageToHistory, currentImage]
  rw [if_neg (by simp)]
  have h : ((s.history.take (s.historyIndex + 1).toNat ++ [x]).length : ℤ) - 1
      = ((s.history.take (s.historyIndex + 1).toNat).length : ℤ) := by
    simp
  rw [h]
  simp only [Int.toNat_natCast, List.get?_eq_getElem?]
  exact List.getElem?_concat_length _ x

/-- C1.  `addImageToHistory` with the index strictly before the last entry:
the entries after the current index are discarded, the new snapshot is
appended, and the index moves to the appended snapshot, which is the new last
element. -/
theorem addImageToHistory_truncates (s : AppHistory α) (x : α)
    (h0 : 0 ≤ s.historyIndex) (hlt : s.historyIndex < (s.history.length : ℤ) - 1) :
    (addImageToHistory s x).history = s.history.take (s.historyIndex.toNat + 1) ++ [x] ∧
    (addImageToHistory s x).historyIndex = s.historyIndex + 1 ∧
    (addImageToHistory s x).historyIndex = ((addImageToHistory s x).history.length : ℤ) - 1 ∧
    currentImage (addImageToHistory s x) = some x := by
  have htn : (s.historyIndex + 1).toNat = s.historyIndex.toNat + 1 := by omega
  have hlen : (s.history.take (s.historyIndex.toNat + 1)).length = s.historyIndex.toNat + 1 := by
    rw [List.length_take]
    omega
  refine ⟨?_, ?_, ?_, currentImage_addImageToHistory s x⟩
  · simp [addImageToHistory, htn]
  · simp only [addImageToHistory, htn, List.length_append, hlen]
    simp
    omega
  · simp [addImageToHistory]

/-- C1 witness: history `[10, 20, 30]` at index 0; adding 99 truncates to
`[10, 99]` with index 1. -/
theorem addImageToHistory_truncates_witness :
    (0 : ℤ) ≤ 0 ∧ (0 : ℤ) < (([10, 20, 30] : List ℕ).length : ℤ) - 1 ∧
    ((addImageToHistory { history := [10, 20, 30], historyIndex := 0 } 99).history
        = ([10, 20, 30] : List ℕ).take (Int.toNat 0 + 1) ++ [99] ∧
      (addImageToHistory { history := [10, 20, 30], historyIndex := 0 } 99).historyIndex = 0 + 1 ∧
      (addImageToHistory { history := [10, 20, 30], historyIndex := 0 } 99).historyIndex
        = (((addImageToHistory { history := [10, 20, 30], historyIndex := 0 } 99).history.length : ℤ)) - 1 ∧
      currentImage (addImageToHistory { history := [10, 20, 30], historyIndex := 0 } 99) = some 99) :=
  ⟨by decide, by decide,
    addImageToHistory_truncates { history := [10, 20, 30], historyIndex := 0 } 99
      (by decide) (by decide)⟩

/-- C2.  From a fresh upload, appending the snapshots `es` one by one, then
undoing `es.length` times, returns to the original snapshot at position 0;
redoing from there replays the snapshots of `es` in order, the
`es.length`-th redo ending at the last edit. -/
theorem undo_redo_roundtrip (a : α) (es : List α) :
    (es.foldl addImageToHistory (handleImageUpload a)).history = a :: es ∧
    (handleUndo^[es.length] (es.foldl addImageToHistory (handleImageUpload a))).historyIndex = 0 ∧
    currentImage (handleUndo^[es.length] (es.foldl addImageToHistory (handleImageUpload a)))
      = some a ∧
    (∀ k : ℕ, k < es.length →
      currentImage (handleRedo^[k + 1]
          (handleUndo^[es.length] (es.foldl addImageToHistory (handleImageUpload a))))
        = es.get? k) := by
  have hupload : (handleImageUpload a : AppHistory α)
      = { history := [a], historyIndex := (([a] : List α).length : ℤ) - 1 } := by
    simp [handleImageUpload]
  have hfold : es.foldl addImageToHistory (handleImageUpload a)
      = { history := a :: es, historyIndex := (es.length : ℤ) } := by
    rw [hupload, foldl_addImageToHistory es [a]]
    simp
  have hundo : handleUndo^[es.length] (es.foldl addImageToHistory (handleImageUpload a))
      = { history := a :: es, historyIndex := 0 } := by
    rw [hfold, iterate_handleUndo es.length (a :: es) (es.length : ℤ) (by omega)]
    simp
  refine ⟨by rw [hfold], by rw [hundo], ?_, ?_⟩
  · rw [hundo]
    simp [currentImage]
  · intro k hk
    have hredo : handleRedo^[k + 1] ({ history := a :: es, historyIndex := 0 } : AppHistory α)
        = { history := a :: es, historyIndex := ((k : ℤ) + 1) } := by
      rw [iterate_handleRedo (k + 1) (a :: es) 0 (by simp; omega)]
      simp
    rw [hundo, hredo]
    simp only [currentImage]
    rw [if_neg (by omega)]
    have h1 : ((k : ℤ) + 1).toNat = k + 1 := by omega
    rw [h1]
    simp

/-- C2 witness: upload 0, edits `[1, 2]`; after 2 undos and 2 redos the
current image is the second edit. -/
theorem undo_redo_roundtrip_witness :
    (1 : ℕ) < ([1, 2] : List ℕ).length ∧
    currentImage (handleRedo^[1 + 1]
        (handleUndo^[([1, 2] : List ℕ).length]
          (([1, 2] : List ℕ).foldl addImageToHistory (handleImageUpload 0))))
      = ([1, 2] : List ℕ).get? 1 :=
  ⟨by decide, (undo_redo_roundtrip (0 : ℕ) [1, 2]).2.2.2 1 (by decide)⟩

/-! ## Zoom and pan

The component keeps `scale : number` and `position : {x, y}`; the image is
rendered under `translate(position) scale(scale)` with transform origin
(0,0).  JS numbers are embedded as exact rationals. -/

/-- The view slice of the component state: zoom `scale` and pan `position`. -/
structure ViewState where
  scale : ℚ
  posX : ℚ
  posY : ℚ
  deriving Repr, DecidableEq

/-- `resetView`: `setScale(1); setPosition({x: 0, y: 0})`. -/
def resetView : ViewState := { scale := 1, posX := 0, posY := 0 }

/-- The wheel handler's raw pre-clamp scale:
`e.deltaY < 0 ? scale * 1.1 : scale / 1.1`. -/
def wheelRawScale (s : ViewState) (deltaY : ℚ) : ℚ :=
  if deltaY < 0 then s.scale * (11 / 10) else s.scale / (11 / 10)

/-- `handleWheel`: clamp the raw scale to [1,10]; return unchanged if the
clamped scale equals the current one; reset the view if it is ≤ 1; otherwise
re-solve the pan so the point under the cursor stays fixed. -/
def handleWheel (s : ViewState) (deltaY mouseX mouseY : ℚ) : ViewState :=
  let newScale := wheelRawScale s deltaY
  let clampedScale := max 1 (min newScale 10)
  if clampedScale = s.scale then s
  else if clampedScale ≤ 1 then resetView
  else
    { scale := clampedScale,
      posX := mouseX - (mouseX - s.posX) * (clampedScale / s.scale),
      posY := mouseY - (mouseY - s.posY) * (clampedScale / s.scale) }

/-- `handleZoomIn`: scale by 1.25 clamped above at 10, anchored at the
viewport center `(width/2, height/2)`. -/
def handleZoomIn (s : ViewState) (width height : ℚ) : ViewState :=
  let centerX := width / 2
  let centerY := height / 2
  let newScale := min (s.scale * (5 / 4)) 10
  { scale := newScale,
    posX := centerX - (centerX - s.posX) * (newScale / s.scale),
    posY := centerY - (centerY - s.posY) * (newScale / s.scale) }

/-- `handleZoomOut`: scale by 1/1.25 clamped below at 1; a result ≤ 1 resets
the view, otherwise the pan is re-solved about the viewport center. -/
def handleZoomOut (s : ViewState) (width height : ℚ) : ViewState :=
  let newScale := max (s.scale / (5 / 4)) 1
  if newScale ≤ 1 then resetView
  else
    let centerX := width / 2
    let centerY := height / 2
    { scale := newScale,
      posX := centerX - (centerX - s.posX) * (newScale / s.scale),
      posY := centerY - (centerY - s.posY) * (newScale / s.scale) }

/-- The zoom invariant maintained by the view handlers: the scale stays in
[1,10] and a scale of exactly 1 forces the pan offset back to the origin. -/
def viewInv (v : ViewState) : Prop :=
  1 ≤ v.scale ∧ v.scale ≤ 10 ∧ (v.scale = 1 → v.posX = 0 ∧ v.posY = 0)

instance (v : ViewState) : Decidable (viewInv v) := by
  unfold viewInv
  infer_instance

/-- C3.  From any view state satisfying the zoom invariant, every zoom
request (wheel with any `deltaY`, zoom-in button, zoom-out button) yields a
scale in [1,10], with requests past 10 clamped to exactly 10 and requests
below 1 clamped to exactly 1, and a resulting scale of 1 comes with pan
offset (0,0). -/
theorem zoom_scale_clamped (s : ViewState) (hInv : viewInv s) :
    (∀ deltaY mouseX mouseY : ℚ,
      viewInv (handleWheel s deltaY mouseX mouseY) ∧
      (10 < wheelRawScale s deltaY → (handleWheel s deltaY mouseX mouseY).scale = 10) ∧
      (wheelRawScale s deltaY < 1 → (handleWheel s deltaY mouseX mouseY).scale = 1)) ∧
    (∀ width height : ℚ,
      viewInv (handleZoomIn s width height) ∧
      (10 < s.scale * (5 / 4) → (handleZoomIn s width height).scale = 10)) ∧
    (∀ width height : ℚ,
      viewInv (handleZoomOut s width height) ∧
      (s.scale / (5 / 4) < 1 → (handleZoomOut s width height).scale = 1)) := by
  obtain ⟨h1, h10, hpan⟩ := hInv
  refine ⟨?_, ?_, ?_⟩
  · intro deltaY mouseX mouseY
    simp only [handleWheel]
    set raw := wheelRawScale s deltaY with hraw
    set clamped := max 1 (min raw 10) with hclamped
    have hc1 : 1 ≤ clamped := le_max_left 1 _
    have hc10 : clamped ≤ 10 := max_le (by norm_num) (min_le_right raw 10)
    have hhigh : 10 < raw → clamped = 10 := by
      intro h
      rw [hclamped, min_eq_right (le_of_lt h), max_eq_right]
      norm_num
    have hlow : raw < 1 → clamped = 1 := by
      intro h
      rw [hclamped, min_eq_left (by linarith), max_eq_left (le_of_lt h)]
    split_ifs with heq hle1
    · exact ⟨⟨h1, h10, hpan⟩,
        fun h => by rw [← heq, hhigh h],
        fun h => by rw [← heq, hlow h]⟩
    · refine ⟨⟨le_refl 1, by norm_num [resetView], fun _ => ⟨rfl, rfl⟩⟩, ?_, fun _ => rfl⟩
      intro h
      exact absurd (hhigh h ▸ hle1) (by norm_num)
    · refine ⟨⟨hc1, hc10, fun h => absurd (h ▸ hle1) (by simp)⟩, fun h => hhigh h, ?_⟩
      intro h
      exact absurd (hlow h ▸ hle1) (by simp)
  · intro width height
    simp only [handleZoomIn]
    have hge : (5 / 4 : ℚ) ≤ s.scale * (5 / 4) := by nlinarith
    constructor
    · refine ⟨le_min (by linarith) (by norm_num), min_le_right _ 10, ?_⟩
      intro h
      rcases min_cases (s.scale * (5 / 4)) 10 with ⟨he, _⟩ | ⟨he, _⟩ <;>
        rw [he] at h <;> [linarith; norm_num at h]
    · intro h
      exact min_eq_right (le_of_lt h)
  · intro width height
    simp only [handleZoomOut]
    have hle : s.scale / (5 / 4) ≤ 8 := by linarith
    split_ifs with hle1
    · exact ⟨⟨le_refl 1, by norm_num [resetView], fun _ => ⟨rfl, rfl⟩⟩, fun _ => rfl⟩
    · refine ⟨⟨le_max_right _ 1, max_le (by linarith) (by norm_num), ?_⟩, ?_⟩
      · intro h
        exact absurd (h ▸ hle1) (by simp)
      · intro h
        have : max (s.scale / (5 / 4)) 1 = 1 := max_eq_right (le_of_lt h)
        exact absurd (this ▸ hle1) (by simp)

/-- C3 counterexample: at scale 1 with a nonzero pan, a wheel zoom-out
request clamps back to the current scale and returns early, so the
resulting scale is 1 yet the pan offset is left untouched; the force-reset
only happens when the clamped scale actually changed. -/
theorem zoom_scale_clamped_cex :
    1 ≤ ({ scale := 1, posX := 5, posY := 5 } : ViewState).scale ∧
    ({ scale := 1, posX := 5, posY := 5 } : ViewState).scale ≤ 10 ∧
    (handleWheel { scale := 1, posX := 5, posY := 5 } 1 0 0).scale = 1 ∧
    ¬((handleWheel { scale := 1, posX := 5, posY := 5 } 1 0 0).posX = 0 ∧
      (handleWheel { scale := 1, posX := 5, posY := 5 } 1 0 0).posY = 0) := by
  norm_num [handleWheel, wheelRawScale]

/-- C3 witness: at scale 4 with pan (3,7), a wheel-down step keeps the
invariant. -/
theorem zoom_scale_clamped_witness :
    viewInv { scale := 4, posX := 3, posY := 7 } ∧
    viewInv (handleWheel { scale := 4, posX := 3, posY := 7 } 1 0 0) :=
  ⟨by decide,
    ((zoom_scale_clamped { scale := 4, posX := 3, posY := 7 } (by decide)).1 1 0 0).1⟩

/-- C4.  Whenever a wheel step leaves the clamped scale above 1, the new pan
satisfies `(mouse - pos') / scale' = (mouse - pos) / scale` in both
coordinates: the image point under the cursor is unchanged. -/
theorem wheel_keeps_cursor_fixed (s : ViewState) (hs : 0 < s.scale)
    (deltaY mouseX mouseY : ℚ)
    (hgt : 1 < (handleWheel s deltaY mouseX mouseY).scale) :
    (mouseX - (handleWheel s deltaY mouseX mouseY).posX)
        / (handleWheel s deltaY mouseX mouseY).scale
      = (mouseX - s.posX) / s.scale ∧
    (mouseY - (handleWheel s deltaY mouseX mouseY).posY)
        / (handleWheel s deltaY mouseX mouseY).scale
      = (mouseY - s.posY) / s.scale := by
  simp only [handleWheel] at *
  set raw := wheelRawScale s deltaY with hraw
  set clamped := max 1 (min raw 10) with hclamped
  split_ifs at hgt ⊢ with heq hle1
  · exact ⟨rfl, rfl⟩
  · exact absurd hgt (by simp [resetView])
  · have hcne : clamped ≠ 0 := by
      simp only at hgt
      intro h
      rw [h] at hgt
      norm_num at hgt
    have hsne : s.scale ≠ 0 := ne_of_gt hs
    refine ⟨?_, ?_⟩ <;>
      (simp only; field_simp; ring)

/-- C4 witness: scale 2, pan (3,4), cursor (5,7), wheel-up; the cursor's
image point is preserved. -/
theorem wheel_keeps_cursor_fixed_witness :
    (0 : ℚ) < ({ scale := 2, posX := 3, posY := 4 } : ViewState).scale ∧
    (1 : ℚ) < (handleWheel { scale := 2, posX := 3, posY := 4 } (-1) 5 7).scale ∧
    ((5 - (handleWheel { scale := 2, posX := 3, posY := 4 } (-1) 5 7).posX)
        / (handleWheel { scale := 2, posX := 3, posY := 4 } (-1) 5 7).scale
      = ((5 : ℚ) - 3) / 2 ∧
    (7 - (handleWheel { scale := 2, posX := 3, posY := 4 } (-1) 5 7).posY)
        / (handleWheel { scale := 2, posX := 3, posY := 4 } (-1) 5 7).scale
      = ((7 : ℚ) - 4) / 2) :=
  ⟨by norm_num, by norm_num [handleWheel, wheelRawScale, resetView],
    wheel_keeps_cursor_fixed { scale := 2, posX := 3, posY := 4 } (by norm_num)
      (-1) 5 7 (by norm_num [handleWheel, wheelRawScale, resetView])⟩

/-! ## Retouch-hotspot click handling and coordinate mapping

`handleImageClick` inverts the pan/scale transform to get on-screen
image-relative coordinates, rejects points outside the image rectangle, and
otherwise stores both hotspots; the display hotspot is rendered back at
`position + hotspot * scale`. -/

/-- The editor tabs. -/
inductive Tab
  | retouch
  | erase
  | adjust
  | filters
  | crop
  | transform
  deriving Repr, DecidableEq

/-- The hotspot slice of the component state set by `handleImageClick`:
`displayHotspot` (on-screen image coordinates) and `editHotspot` (natural
pixel coordinates, rounded). -/
structure Hotspots where
  displayHotspot : Option (ℚ × ℚ)
  editHotspot : Option (ℤ × ℤ)
  deriving Repr, DecidableEq

/-- `handleImageClick`: other tabs are ignored; the click's container-relative
position is mapped through the inverse pan/scale transform, rejected when it
falls outside `[0, clientWidth] × [0, clientHeight]`, and otherwise recorded
as the display hotspot and (scaled by natural/client and rounded as
`Math.round` does) as the edit hotspot. -/
def handleImageClick (activeTab : Tab) (position : ℚ × ℚ) (scale : ℚ)
    (mouseX mouseY clientWidth clientHeight naturalWidth naturalHeight : ℚ)
    (prev : Hotspots) : Hotspots :=
  if activeTab ≠ Tab.retouch then prev
  else
    let imageX := (mouseX - position.1) / scale
    let imageY := (mouseY - position.2) / scale
    if imageX < 0 ∨ imageY < 0 ∨ imageX > clientWidth ∨ imageY > clientHeight then prev
    else
      let scaleX := naturalWidth / clientWidth
      let scaleY := naturalHeight / clientHeight
      { displayHotspot := some (imageX, imageY),
        editHotspot := some (round (imageX * scaleX), round (imageY * scaleY)) }

/-- The forward viewport-to-image mapping used by `handleImageClick`:
`((mouse - position) / scale)` componentwise. -/
def viewportToImage (position : ℚ × ℚ) (scale : ℚ) (mouse : ℚ × ℚ) : ℚ × ℚ :=
  ((mouse.1 - position.1) / scale, (mouse.2 - position.2) / scale)

/-- The backward image-to-viewport mapping used to render the display
hotspot: `position + hotspot * scale` componentwise (the `left`/`top` of the
hotspot marker). -/
def imageToViewport (position : ℚ × ℚ) (scale : ℚ) (p : ℚ × ℚ) : ℚ × ℚ :=
  (position.1 + p.1 * scale, position.2 + p.2 * scale)

/-- C5.  A click whose inverse-transformed coordinates fall outside
`[0, clientWidth] × [0, clientHeight]` leaves both hotspots unchanged, on
every tab. -/
theorem imageClick_outside_noop (activeTab : Tab) (position : ℚ × ℚ) (scale : ℚ)
    (mouseX mouseY clientWidth clientHeight naturalWidth naturalHeight : ℚ)
    (prev : Hotspots)
    (hout : (viewportToImage position scale (mouseX, mouseY)).1 < 0 ∨
      (viewportToImage position scale (mouseX, mouseY)).2 < 0 ∨
      clientWidth < (viewportToImage position scale (mouseX, mouseY)).1 ∨
      clientHeight < (viewportToImage position scale (mouseX, mouseY)).2) :
    handleImageClick activeTab position scale mouseX mouseY
        clientWidth clientHeight naturalWidth naturalHeight prev = prev := by
  simp only [handleImageClick, viewportToImage] at *
  split_ifs <;> rfl

/-- C5 witness: at scale 1 and pan (0,0), a click at (-3,5) on a 10×10 image
maps to (-3,5), which is rejected, so the previously stored hotspots remain. -/
theorem imageClick_outside_noop_witness :
    ((viewportToImage (0, 0) 1 (-3, 5)).1 < 0 ∨
      (viewportToImage (0, 0) 1 (-3, 5)).2 < 0 ∨
      (10 : ℚ) < (viewportToImage (0, 0) 1 (-3, 5)).1 ∨
      (10 : ℚ) < (viewportToImage (0, 0) 1 (-3, 5)).2) ∧
    handleImageClick Tab.retouch (0, 0) 1 (-3) 5 10 10 20 20
        { displayHotspot := some (1, 1), editHotspot := some (2, 2) }
      = { displayHotspot := some (1, 1), editHotspot := some (2, 2) } :=
  ⟨Or.inl (by norm_num [viewportToImage]),
    imageClick_outside_noop Tab.retouch (0, 0) 1 (-3) 5 10 10 20 20
      { displayHotspot := some (1, 1), editHotspot := some (2, 2) }
      (Or.inl (by norm_num [viewportToImage]))⟩

/-- C6.  For positive scale the viewport-to-image map and the image-to-
viewport map are exact two-sided inverses over ℚ. -/
theorem coordinate_roundtrip (position : ℚ × ℚ) (scale : ℚ) (hs : 0 < scale)
    (mouse p : ℚ × ℚ) :
    imageToViewport position scale (viewportToImage position scale mouse) = mouse ∧
    viewportToImage position scale (imageToViewport position scale p) = p := by
  have hne : scale ≠ 0 := ne_of_gt hs
  constructor
  · simp only [viewportToImage, imageToViewport]
    rw [Prod.ext_iff]
    constructor <;> (simp only; field_simp)
  · simp only [viewportToImage, imageToViewport]
    rw [Prod.ext_iff]
    constructor <;> (simp only; field_simp)

/-- C6 witness: pan (1,2), scale 3, roundtripping the points (5,7) and (4,9). -/
theorem coordinate_roundtrip_witness :
    (0 : ℚ) < 3 ∧
    (imageToViewport (1, 2) 3 (viewportToImage (1, 2) 3 (5, 7)) = (5, 7) ∧
      viewportToImage (1, 2) 3 (imageToViewport (1, 2) 3 (4, 9)) = (4, 9)) :=
  ⟨by norm_num, coordinate_roundtrip (1, 2) 3 (by norm_num) (5, 7) (4, 9)⟩

/-! ## Erase-mask rasterization

`handleApplyErase` builds an offscreen mask canvas at the image's natural
dimensions, fills it black, and strokes the recorded polyline in white with
a scaled line width; the drawing commands are embedded as a record. -/

/-- The two colors the mask drawing uses. -/
inductive MaskColor
  | black
  | white
  deriving Repr, DecidableEq

/-- Canvas line-cap / line-join styles (only `round` is used). -/
inductive LineStyle
  | butt
  | round
  | square
  deriving Repr, DecidableEq

/-- The drawing commands `handleApplyErase` issues on the offscreen mask
canvas: its dimensions, the background fill and its rectangle, the stroke
settings, and the scaled polyline (a `moveTo` on the first point, `lineTo`
on the rest). -/
structure MaskSpec where
  width : ℕ
  height : ℕ
  fillStyle : MaskColor
  fillRect : ℚ × ℚ × ℚ × ℚ
  strokeStyle : MaskColor
  lineWidth : ℚ
  lineCap : LineStyle
  lineJoin : LineStyle
  strokedPath : List (ℚ × ℚ)
  deriving Repr, DecidableEq

/-- The mask-building part of `handleApplyErase`: the canvas is sized to
`naturalWidth × naturalHeight`, black-filled over `(0,0,w,h)`, and the path
is stroked in white with `lineWidth = 30 * scaleX`, round caps and joins,
each point scaled by `(scaleX, scaleY) = (naturalWidth / displayCanvas.width,
naturalHeight / displayCanvas.height)`. -/
def buildEraseMask (naturalWidth naturalHeight : ℕ) (displayWidth displayHeight : ℚ)
    (path : List (ℚ × ℚ)) : MaskSpec :=
  let scaleX := (naturalWidth : ℚ) / displayWidth
  let scaleY := (naturalHeight : ℚ) / displayHeight
  { width := naturalWidth
    height := naturalHeight
    fillStyle := MaskColor.black
    fillRect := (0, 0, (naturalWidth : ℚ), (naturalHeight : ℚ))
    strokeStyle := MaskColor.white
    lineWidth := 30 * scaleX
    lineCap := LineStyle.round
    lineJoin := LineStyle.round
    strokedPath := path.map fun p => (p.1 * scaleX, p.2 * scaleY) }

/-- C7.  The rasterized mask always has the image's natural dimensions, a
black background over the whole canvas, and the polyline stroked in white
with line width `30 * (W/w)`, round caps and joins, each point scaled by
`(W/w, H/h)`. -/
theorem eraseMask_spec (naturalW naturalH : ℕ) (displayW displayH : ℚ)
    (path : List (ℚ × ℚ)) :
    (buildEraseMask naturalW naturalH displayW displayH path).width = naturalW ∧
    (buildEraseMask naturalW naturalH displayW displayH path).height = naturalH ∧
    (buildEraseMask naturalW naturalH displayW displayH path).fillStyle = MaskColor.black ∧
    (buildEraseMask naturalW naturalH displayW displayH path).fillRect
      = (0, 0, (naturalW : ℚ), (naturalH : ℚ)) ∧
    (buildEraseMask naturalW naturalH displayW displayH path).strokeStyle = MaskColor.white ∧
    (buildEraseMask naturalW naturalH displayW displayH path).lineWidth
      = 30 * ((naturalW : ℚ) / displayW) ∧
    (buildEraseMask naturalW naturalH displayW displayH path).lineCap = LineStyle.round ∧
    (buildEraseMask naturalW naturalH displayW displayH path).lineJoin = LineStyle.round ∧
    (buildEraseMask naturalW naturalH displayW displayH path).strokedPath
      = path.map fun p =>
          (p.1 * ((naturalW : ℚ) / displayW), p.2 * ((naturalH : ℚ) / displayH)) :=
  ⟨rfl, rfl, rfl, rfl, rfl, rfl, rfl, rfl, rfl⟩

/-! ## Rotate / flip transforms

`handleTransform` sizes a fresh canvas — swapped dimensions for the two
rotations, unchanged for the two flips — applies the matching canvas
transform and redraws the image. -/

/-- The four supported transformations. -/
inductive Transformation
  | rotateLeft
  | rotateRight
  | flipHorizontal
  | flipVertical
  deriving Repr, DecidableEq

/-- The output canvas dimensions `handleTransform` uses for an image of
natural size `(w, h)`: `(h, w)` for either rotation, `(w, h)` for either
flip. -/
def handleTransformDims (transformation : Transformation) (dims : ℕ × ℕ) : ℕ × ℕ :=
  match transformation, dims with
  | Transformation.rotateLeft, (w, h) => (h, w)
  | Transformation.rotateRight, (w, h) => (h, w)
  | Transformation.flipHorizontal, (w, h) => (w, h)
  | Transformation.flipVertical, (w, h) => (w, h)

/-- C8.  A single rotation swaps the dimensions, so rotating -90° then +90°
(or the reverse) restores the original dimensions; flips leave the
dimensions unchanged. -/
theorem transform_dims (w h : ℕ) :
    handleTransformDims Transformation.rotateLeft (w, h) = (h, w) ∧
    handleTransformDims Transformation.rotateRight (w, h) = (h, w) ∧
    handleTransformDims Transformation.rotateRight
      (handleTransformDims Transformation.rotateLeft (w, h)) = (w, h) ∧
    handleTransformDims Transformation.rotateLeft
      (handleTransformDims Transformation.rotateRight (w, h)) = (w, h) ∧
    handleTransformDims Transformation.flipHorizontal (w, h) = (w, h) ∧
    handleTransformDims Transformation.flipVertical (w, h) = (w, h) :=
  ⟨rfl, rfl, rfl, rfl, rfl, rfl⟩

/-! ## Crop extraction

`handleApplyCrop` maps the completed crop rectangle (in displayed
coordinates) to the natural-resolution image via `scaleX = naturalWidth /
image.width`, sizes the output canvas by the device pixel ratio, and draws
the sub-region; the result is pushed onto the history. -/

/-- A completed crop rectangle in displayed pixel coordinates
(react-image-crop's `PixelCrop`). -/
structure PixelCrop where
  x : ℚ
  y : ℚ
  width : ℚ
  height : ℚ
  deriving Repr, DecidableEq

/-- The canvas operations of `handleApplyCrop`: final canvas dimensions
(after the pixel-ratio resize), the `setTransform` scale, and the
`drawImage` source and destination rectangles. -/
structure CropRender where
  canvasWidth : ℚ
  canvasHeight : ℚ
  transformScale : ℚ
  srcX : ℚ
  srcY : ℚ
  srcW : ℚ
  srcH : ℚ
  destX : ℚ
  destY : ℚ
  destW : ℚ
  destH : ℚ
  deriving Repr, DecidableEq

/-- The drawing part of `handleApplyCrop` for an image of natural size
`(naturalWidth, naturalHeight)` displayed at `(width, height)`. -/
def renderCrop (naturalWidth naturalHeight width height : ℚ) (completedCrop : PixelCrop)
    (pixelRatio : ℚ) : CropRender :=
  let scaleX := naturalWidth / width
  let scaleY := naturalHeight / height
  { canvasWidth := completedCrop.width * pixelRatio
    canvasHeight := completedCrop.height * pixelRatio
    transformScale := pixelRatio
    srcX := completedCrop.x * scaleX
    srcY := completedCrop.y * scaleY
    srcW := completedCrop.width * scaleX
    srcH := completedCrop.height * scaleY
    destX := 0
    destY := 0
    destW := completedCrop.width
    destH := completedCrop.height }

/-- `handleApplyCrop`: render the crop and push the exported file (`mk` is
the `dataURLtoFile` conversion of the canvas export) onto the history. -/
def handleApplyCrop (s : AppHistory α) (mk : CropRender → α)
    (naturalWidth naturalHeight width height : ℚ) (completedCrop : PixelCrop)
    (pixelRatio : ℚ) : AppHistory α :=
  addImageToHistory s (mk (renderCrop naturalWidth naturalHeight width height
    completedCrop pixelRatio))

/-- C9.  Apply-crop draws the `(x·W/w, y·H/h, width·W/w, height·H/h)`
sub-region of the natural image onto a canvas of dimensions
`(width·r, height·r)`, and the exported result is appended to the history as
the new current image. -/
theorem applyCrop_spec (s : AppHistory α) (mk : CropRender → α)
    (naturalW naturalH dispW dispH : ℚ) (completedCrop : PixelCrop) (ratio : ℚ) :
    (renderCrop naturalW naturalH dispW dispH completedCrop ratio).canvasWidth
      = completedCrop.width * ratio ∧
    (renderCrop naturalW naturalH dispW dispH completedCrop ratio).canvasHeight
      = completedCrop.height * ratio ∧
    (renderCrop naturalW naturalH dispW dispH completedCrop ratio).srcX
      = completedCrop.x * (naturalW / dispW) ∧
    (renderCrop naturalW naturalH dispW dispH completedCrop ratio).srcY
      = completedCrop.y * (naturalH / dispH) ∧
    (renderCrop naturalW naturalH dispW dispH completedCrop ratio).srcW
      = completedCrop.width * (naturalW / dispW) ∧
    (renderCrop naturalW naturalH dispW dispH completedCrop ratio).srcH
      = completedCrop.height * (naturalH / dispH) ∧
    handleApplyCrop s mk naturalW naturalH dispW dispH completedCrop ratio
      = addImageToHistory s
          (mk (renderCrop naturalW naturalH dispW dispH completedCrop ratio)) ∧
    currentImage (handleApplyCrop s mk naturalW naturalH dispW dispH completedCrop ratio)
      = some (mk (renderCrop naturalW naturalH dispW dispH completedCrop ratio)) :=
  ⟨rfl, rfl, rfl, rfl, rfl, rfl, rfl, currentImage_addImageToHistory s _⟩

/-! ## Apply-erase guard

`handleApplyErase` refuses to run with fewer than two recorded path points:
it sets an error and performs no state change, while the erase panel's
button is already enabled for a single-point path. -/

/-- The slice of the component state `handleApplyErase` reads and writes:
the history, the error banner, and the recorded erase path. -/
structure EraseState (α : Type) where
  hist : AppHistory α
  error : Option String
  erasePath : List (ℚ × ℚ)

/-- `handleEraseMouseDown`: a fresh gesture starts the path with the single
point under the cursor. -/
def handleEraseMouseDown (x y : ℚ) : List (ℚ × ℚ) := [(x, y)]

/-- `canErase` as passed to `ErasePanel`: `erasePath.length > 0`. -/
def canErase (erasePath : List (ℚ × ℚ)) : Bool := erasePath.length > 0

/-- `handleApplyErase`: with no current image or fewer than 2 path points,
set the error message and stop; otherwise clear the error and build the
mask for the inpainting request. -/
def handleApplyErase (s : EraseState α) (naturalWidth naturalHeight : ℕ)
    (displayWidth displayHeight : ℚ) : EraseState α × Option MaskSpec :=
  if (currentImage s.hist).isNone ∨ s.erasePath.length < 2 then
    ({ s with error := some "Please draw on the image to select an area to erase." }, none)
  else
    ({ s with error := none },
      some (buildEraseMask naturalWidth naturalHeight displayWidth displayHeight s.erasePath))

/-- C10.  With fewer than two recorded path points — in particular the
single-point path of a motionless click, which still enables the panel's
erase button — apply-erase only sets the error message: history, index and
current image are untouched and no mask is produced. -/
theorem applyErase_guard (s : EraseState α) (naturalW naturalH : ℕ)
    (displayW displayH : ℚ) (h : s.erasePath.length < 2) :
    (handleApplyErase s naturalW naturalH displayW displayH).1.hist = s.hist ∧
    currentImage (handleApplyErase s naturalW naturalH displayW displayH).1.hist
      = currentImage s.hist ∧
    (handleApplyErase s naturalW naturalH displayW displayH).1.error
      = some "Please draw on the image to select an area to erase." ∧
    (handleApplyErase s naturalW naturalH displayW displayH).2 = none ∧
    (∀ x y : ℚ, canErase (handleEraseMouseDown x y) = true) := by
  simp only [handleApplyErase, if_pos (Or.inr h)]
  exact ⟨trivial, trivial, trivial, trivial, fun x y => rfl⟩

/-- C10 witness: a one-point path on a loaded image is rejected with the
error message and an unchanged history. -/
theorem applyErase_guard_witness :
    (([(1, 2)] : List (ℚ × ℚ)).length < 2) ∧
    ((handleApplyErase
        { hist := { history := [5], historyIndex := 0 }, error := none,
          erasePath := [(1, 2)] } 4 3 2 1 : EraseState ℕ × Option MaskSpec).1.hist
      = { history := [5], historyIndex := 0 } ∧
    currentImage (handleApplyErase
        { hist := { history := [5], historyIndex := 0 }, error := none,
          erasePath := [(1, 2)] } 4 3 2 1 : EraseState ℕ × Option MaskSpec).1.hist
      = currentImage ({ history := [5], historyIndex := 0 } : AppHistory ℕ) ∧
    (handleApplyErase
        { hist := { history := [5], historyIndex := 0 }, error := none,
          erasePath := [(1, 2)] } 4 3 2 1 : EraseState ℕ × Option MaskSpec).1.error
      = some "Please draw on the image to select an area to erase." ∧
    (handleApplyErase
        { hist := { history := [5], historyIndex := 0 }, error := none,
          erasePath := [(1, 2)] } 4 3 2 1 : EraseState ℕ × Option MaskSpec).2 = none ∧
    (∀ x y : ℚ, canErase (handleEraseMouseDown x y) = true)) :=
  ⟨by decide,
    applyErase_guard
      { hist := { history := [5], historyIndex := 0 }, error := none, erasePath := [(1, 2)] }
      4 3 2 1 (by decide)⟩

end Pixshop
